import Mathlib

/-!
Verification of the `stowr` domain code generator.

The definitions below shallowly embed the two procedural generators of
`src/crates/macro/src/lib.rs` (`domain` and `domain_impl`), the identifier
runtime support of `src/crates/core/src/common.rs` (`RepositoryId`), and the
in-memory reference repository adapter (`VectorFooRepo` from the tests in
`common.rs`).  Pure Rust functions become Lean functions; the mutation of a
cloned aggregate inside the generated `handle_command` is made observable by
returning the mutated clone alongside the produced events; fallible
operations return `Except`/`Option`.
-/

namespace Stowr

/-! ## Generated aggregate dispatcher (semantics of the `domain_impl` output)

`domain_impl` emits, for an impl block with command-flagged methods, a
`Command` enum, an `Event` enum and an `Aggregate` impl.  We model the family
of generated dispatchers generically: `I` indexes the command-flagged methods
(one index per generated variant), `Arg i` is the record of non-receiver
parameters of method `i`, and `method i : S → Arg i → S` is the underlying
`&mut self` method of the entity type `S`, viewed as a state transformer. -/

/-- Mirrors `pub enum AggregateError {}` of `common.rs`: an empty enum. -/
inductive AggregateError : Type

/-- A value of the generated `{Name}Command` enum: a variant tag plus the
payload holding the originating method's non-receiver parameters. -/
structure CommandValue (I : Type) (Arg : I → Type) where
  variant : I
  payload : Arg variant

/-- A value of the generated `{Name}Event` enum; by construction it has the
same variant tags and payload shapes as the command enum. -/
structure EventValue (I : Type) (Arg : I → Type) where
  variant : I
  payload : Arg variant

/-- The data the generator works from: for each command-flagged method its
semantics on the entity state. -/
structure GeneratedAggregate (S : Type) (I : Type) (Arg : I → Type) where
  method : (i : I) → S → Arg i → S

/-- The body of the generated `handle_command` match arm
(`src/crates/macro/src/lib.rs` lines 117–123): clone the state
(`let mut agg = self.clone()`), invoke the method on the clone with clones of
the command's arguments, and build the single event from the original
argument values.  The first component is the mutated clone `agg` (which the
generated Rust code lets go out of scope); the second is the produced event
list. -/
def handle_command_steps {S I : Type} {Arg : I → Type}
    (G : GeneratedAggregate S I Arg) (s : S) (cmd : CommandValue I Arg) :
    S × List (EventValue I Arg) :=
  match cmd with
  | ⟨i, a⟩ => (G.method i s a, [⟨i, a⟩])

/-- The generated `handle_command` (lines 157–161): the whole match is
wrapped in `Ok(...)`, and the mutated clone is discarded. -/
def handle_command {S I : Type} {Arg : I → Type}
    (G : GeneratedAggregate S I Arg) (s : S) (cmd : CommandValue I Arg) :
    Except AggregateError (List (EventValue I Arg)) :=
  Except.ok (handle_command_steps G s cmd).2

/-- The generated `apply_event` (lines 126–130, 163–167): match the event
variant and invoke the same underlying method on the live state. -/
def apply_event {S I : Type} {Arg : I → Type}
    (G : GeneratedAggregate S I Arg) (s : S) (evt : EventValue I Arg) : S :=
  match evt with
  | ⟨i, a⟩ => G.method i s a

/-! ## Syntactic model of `domain_impl` (variant generation, lines 73–136)

`heck::ToUpperCamelCase` is an external dependency.  Modelled from the spec:
"each variant name is the PascalCase transform of the originating method
name" — words are split at underscores/hyphens and at lower-to-upper camel
boundaries, then each word is capitalized. -/

/-- Capitalize a word: first character upper-cased, rest lower-cased. -/
def capitalizeWord : List Char → List Char
  | [] => []
  | c :: cs => c.toUpper :: cs.map Char.toLower

/-- Split an identifier into words at `_`/`-` separators and at
lower-or-digit to uppercase boundaries.  `acc` holds the current word,
reversed. -/
def splitWords (l : List Char) (acc : List Char) : List (List Char) :=
  match l with
  | [] => if acc.isEmpty then [] else [acc.reverse]
  | c :: cs =>
    if c = '_' ∨ c = '-' then
      (if acc.isEmpty then [] else [acc.reverse]) ++ splitWords cs []
    else if c.isUpper && (match acc with
        | p :: _ => p.isLower || p.isDigit
        | [] => false) then
      acc.reverse :: splitWords cs [c]
    else
      splitWords cs (c :: acc)

/-- Modelled from the spec: the PascalCase transform used for variant names
(`method.to_string().to_upper_camel_case()`, line 96). -/
def upperCamelCase (s : String) : String :=
  String.mk (((splitWords s.data []).map capitalizeWord).flatten)

/-- A method of the impl block, as the macro sees it: name, attribute paths,
and the non-receiver parameters (name and type text), in order. -/
structure MethodDecl where
  name : String
  attrs : List String
  params : List (String × String)
  deriving DecidableEq, Repr

/-- Line 90: `m.attrs.iter().any(|a| a.path().is_ident("command"))`. -/
def methodIsCommand (m : MethodDecl) : Bool :=
  m.attrs.any (fun a => a == "command")

/-- One generated enum variant: its name and its fields (name and type
text), as pushed on lines 111–112. -/
structure Variant where
  name : String
  fields : List (String × String)
  deriving DecidableEq, Repr

/-- The loop over `input.items` (lines 88–132): non-command methods are
skipped; for each command-flagged method one identical variant is pushed to
both `cmd_variants` and `evt_variants`, in method order. -/
def domainImplLoop : List MethodDecl → List Variant × List Variant
  | [] => ([], [])
  | m :: rest =>
    let tail := domainImplLoop rest
    if methodIsCommand m then
      (⟨upperCamelCase m.name, m.params⟩ :: tail.1,
       ⟨upperCamelCase m.name, m.params⟩ :: tail.2)
    else
      tail

/-- The implementor type of the impl block: a path type (whose last segment
names the entity) or anything else (which the macro rejects, line 78). -/
inductive SelfTy : Type
  | path : String → SelfTy
  | other : SelfTy
  deriving DecidableEq, Repr

/-- The parsed `ItemImpl` input of `domain_impl`. -/
structure ItemImplModel where
  self_ty : SelfTy
  items : List MethodDecl
  deriving DecidableEq, Repr

/-- The artifacts assembled on lines 134–169 that the claims speak about:
the names of the two enums and their variant lists. -/
structure DomainImplOutput where
  self_ty_name : String
  cmd_enum_name : String
  evt_enum_name : String
  cmd_variants : List Variant
  evt_variants : List Variant
  deriving DecidableEq, Repr

/-- The `domain_impl` macro (lines 73–172): panic (modelled as
`Except.error`) when the implementor is not a path type, otherwise emit the
command/event enums built by the loop.  Note there is no collision check on
variant names anywhere on this path. -/
def domain_impl (input : ItemImplModel) : Except String DomainImplOutput :=
  match input.self_ty with
  | SelfTy.other => Except.error "domain_impl only supports inherent impls on a type"
  | SelfTy.path n =>
    let vs := domainImplLoop input.items
    Except.ok ⟨n, n ++ "Command", n ++ "Event", vs.1, vs.2⟩

/-! ## The `domain` macro's generated constructor (lines 40–51)

The generated `new(id, f_1: impl Into<T_1>, …)` builds the struct literal
`Name { id, f_1: f_1.into(), … }`.  Rust evaluates the struct-literal fields
left to right, so the `Into` conversions run once each, in declaration
order.  We model field values homogeneously by a value type `V` and make the
evaluation order observable by threading an explicit effect world `W`
through the conversions. -/

/-- The generated entity record: the injected `id` field followed by the
declared fields in declaration order. -/
structure EntityRecordModel (Id V : Type) where
  id : Id
  fields : List V
  deriving DecidableEq, Repr

/-- Left-to-right evaluation of the struct-literal field initializers
`#names: #names.into()`: the i-th conversion is applied to the i-th
argument, threading the world in order. -/
def runConversions {V W : Type} :
    List (V → W → V × W) → List V → W → List V × W
  | [], _, w => ([], w)
  | _ :: _, [], w => ([], w)
  | f :: fs, a :: rest, w =>
    let r1 := f a w
    let r2 := runConversions fs rest r1.2
    (r1.1 :: r2.1, r2.2)

/-- The generated constructor `new`: the caller-supplied identifier is
stored unchanged and every declared field is the conversion of the matching
argument. -/
def entityNew {Id V W : Type} (convs : List (V → W → V × W)) (id : Id)
    (args : List V) (w : W) : EntityRecordModel Id V × W :=
  let r := runConversions convs args w
  (⟨id, r.1⟩, r.2)

/-! ## `RepositoryId` runtime support (`common.rs` lines 26–84)

`RepositoryId<T>` wraps a `uuid::Uuid` (an opaque 128-bit value) plus a
`PhantomData<T>` marker.  The `uuid` crate is an external dependency;
modelled from the spec: the canonical UUID text form is the lowercase
hyphenated rendering `xxxxxxxx-xxxx-xxxx-xxxx-xxxxxxxxxxxx` of the 128-bit
value in big-endian hex, and parsing reads that canonical form back.  We
model the 128-bit value as a `Nat` (meaningful values are `< 2^128`). -/

/-- Lowercase hex digit character for `n < 16`. -/
def hexDigitChar (n : Nat) : Char :=
  if n < 10 then Char.ofNat (48 + n) else Char.ofNat (87 + n)

/-- Numeric value of a hex digit character; uppercase digits are accepted on
the parsing side as well. -/
def hexDigitVal (c : Char) : Option Nat :=
  if 48 ≤ c.toNat ∧ c.toNat ≤ 57 then some (c.toNat - 48)
  else if 97 ≤ c.toNat ∧ c.toNat ≤ 102 then some (c.toNat - 87)
  else if 65 ≤ c.toNat ∧ c.toNat ≤ 70 then some (c.toNat - 55)
  else none

/-- Big-endian fixed-width hex rendering: `w` digits, high digit first. -/
def natToHexList : Nat → Nat → List Char
  | 0, _ => []
  | w + 1, n => hexDigitChar (n / 16 ^ w) :: natToHexList w (n % 16 ^ w)

/-- Read exactly `w` hex digits, accumulating big-endian into `acc`, and
return the rest of the input. -/
def readHex : Nat → Nat → List Char → Option (Nat × List Char)
  | 0, acc, cs => some (acc, cs)
  | _ + 1, _, [] => none
  | w + 1, acc, c :: cs =>
    match hexDigitVal c with
    | some d => readHex w (acc * 16 + d) cs
    | none => none

/-- Expect a `-` separator. -/
def expectDash : List Char → Option (List Char)
  | '-' :: cs => some cs
  | _ => none

/-- Modelled from the spec: the canonical hyphenated rendering of a 128-bit
value, five big-endian hex groups of 8, 4, 4, 4 and 12 digits. -/
def uuidChars (n : Nat) : List Char :=
  natToHexList 8 (n / 2 ^ 96) ++ '-' ::
  (natToHexList 4 (n / 2 ^ 80 % 2 ^ 16) ++ '-' ::
  (natToHexList 4 (n / 2 ^ 64 % 2 ^ 16) ++ '-' ::
  (natToHexList 4 (n / 2 ^ 48 % 2 ^ 16) ++ '-' ::
  natToHexList 12 (n % 2 ^ 48))))

/-- `Display` of the underlying UUID (`common.rs` lines 52–56 delegate to
it). -/
def uuidToString (n : Nat) : String :=
  String.mk (uuidChars n)

/-- Modelled from the spec: parsing the canonical hyphenated text form back
into the 128-bit value (the hyphenated branch of `Uuid::from_str`). -/
def uuidParseChars (cs : List Char) : Option Nat :=
  (readHex 8 0 cs).bind fun p1 =>
  (expectDash p1.2).bind fun r1 =>
  (readHex 4 p1.1 r1).bind fun p2 =>
  (expectDash p2.2).bind fun r2 =>
  (readHex 4 p2.1 r2).bind fun p3 =>
  (expectDash p3.2).bind fun r3 =>
  (readHex 4 p3.1 r3).bind fun p4 =>
  (expectDash p4.2).bind fun r4 =>
  (readHex 12 p4.1 r4).bind fun p5 =>
  match p5.2 with
  | [] => some p5.1
  | _ :: _ => none

/-- String-level UUID parsing. -/
def uuidFromString (s : String) : Option Nat :=
  uuidParseChars s.data

/-- `RepositoryId<T>` (`common.rs` lines 28–33): the raw UUID value plus
the `PhantomData<T>` marker (a zero-sized field, modelled by `Unit`). -/
structure RepositoryId (T : Type) where
  value : Nat
  marker : Unit
  deriving DecidableEq, Repr

/-- `Display for RepositoryId<T>` (lines 52–56): delegate to the value. -/
def RepositoryId.render {T : Type} (id : RepositoryId T) : String :=
  uuidToString id.value

/-- `FromStr for RepositoryId<T>` (lines 58–67): parse the UUID and wrap it
with a fresh `PhantomData`; a parse failure is returned as an error. -/
def RepositoryId.fromStr (T : Type) (s : String) :
    Except String (RepositoryId T) :=
  match uuidFromString s with
  | some n => Except.ok ⟨n, ()⟩
  | none => Except.error "invalid uuid"

/-- The serialized form of a `RepositoryId<T>`: the `_marker` field carries
`#[serde(skip)]` (line 31), so only the raw UUID value appears, rendered in
its canonical text form; no trace of `T` remains. -/
structure SerializedRepositoryId where
  value : String
  deriving DecidableEq, Repr

/-- Serialization of an identifier: emit only the `value` field. -/
def RepositoryId.serialize {T : Type} (id : RepositoryId T) :
    SerializedRepositoryId :=
  ⟨uuidToString id.value⟩

/-- Deserialization of an identifier at any tag `T`: read the `value` field
and reconstruct the skipped marker as its default. -/
def RepositoryId.deserialize (T : Type) (s : SerializedRepositoryId) :
    Except String (RepositoryId T) :=
  match uuidFromString s.value with
  | some n => Except.ok ⟨n, ()⟩
  | none => Except.error "invalid uuid"

/-! ## The `Foo` test aggregate and the in-memory reference repository
(`common.rs` test module, lines 129–181) -/

/-- `enum FooTag {}` as expanded by `#[domain] struct Foo`. -/
inductive FooTag : Type
  deriving DecidableEq

/-- `type FooId = RepositoryId<FooTag>;`. -/
def FooId : Type := RepositoryId FooTag

instance : DecidableEq FooId := by
  unfold FooId
  infer_instance

/-- The expanded `Foo` struct: the injected `id` field plus the declared
`name` field. -/
structure Foo where
  id : FooId
  name : String
  deriving DecidableEq

/-- The single command-flagged method `rename` (lines 136–139):
`self.name = new_name`. -/
def Foo.rename (f : Foo) (new_name : String) : Foo :=
  { f with name := new_name }

/-- The one generated command variant of `Foo`: `Rename`. -/
inductive FooCommandIndex : Type
  | rename
  deriving DecidableEq

/-- The payloads of the `Foo` variants: `Rename { new_name: String }`. -/
def FooArg : FooCommandIndex → Type
  | FooCommandIndex.rename => String

/-- The generated aggregate dispatcher for `Foo`. -/
def fooAggregate : GeneratedAggregate Foo FooCommandIndex FooArg :=
  ⟨fun i => match i with
    | FooCommandIndex.rename => fun s a => s.rename a⟩

/-- `VectorFooRepo` (lines 153–155): a list-backed store.  The `Mutex`
around the vector provides mutual exclusion only; the sequential semantics
modelled here is what each lock-holding call performs. -/
structure VectorFooRepo where
  db : List Foo
  deriving DecidableEq

/-- `VectorFooRepo::new` (lines 157–163): an empty backing vector. -/
def VectorFooRepo.empty : VectorFooRepo := ⟨[]⟩

/-- `create` (lines 170–174): push a clone of the entity and return the
entity itself, always `Ok`. -/
def VectorFooRepo.create (r : VectorFooRepo) (entity : Foo) :
    VectorFooRepo × Except String Foo :=
  ({ db := r.db ++ [entity] }, Except.ok entity)

/-- `fetch` (lines 176–179): linear scan for the first entity with the
requested id; absence is `Ok(None)`, not an error. -/
def VectorFooRepo.fetch (r : VectorFooRepo) (id : FooId) :
    Except String (Option Foo) :=
  Except.ok (r.db.find? (fun d => d.id == id))

/-- A repository populated by a sequence of `create` calls starting from
`VectorFooRepo::new`. -/
def repoOfCreates (es : List Foo) : VectorFooRepo :=
  es.foldl (fun r e => (r.create e).1) VectorFooRepo.empty

/-! ## Theorems about the generated dispatcher -/

/-- Claim C1: for every generated aggregate and every command value,
`handle_command` returns `Ok` with a list containing exactly one event — the
variant corresponding to the command — and never returns an error or a list
of zero or several events. -/
theorem handle_command_always_one_event {S I : Type} {Arg : I → Type}
    (G : GeneratedAggregate S I Arg) (s : S) (cmd : CommandValue I Arg) :
    handle_command G s cmd =
      Except.ok [(⟨cmd.variant, cmd.payload⟩ : EventValue I Arg)] := by
  cases cmd
  rfl

/-- Claim C2: `handle_command` invokes the matching method on a copy of the
state (the first component of `handle_command_steps` is the mutated copy,
obtained by running the method on the cloned state with the command's
arguments), and the single returned event carries exactly those argument
values — unchanged by the call, since the invocation receives clones. -/
theorem handle_command_copy_and_payload {S I : Type} {Arg : I → Type}
    (G : GeneratedAggregate S I Arg) (s : S) (cmd : CommandValue I Arg) :
    (handle_command_steps G s cmd).1 = G.method cmd.variant s cmd.payload ∧
    handle_command G s cmd =
      Except.ok [(⟨cmd.variant, cmd.payload⟩ : EventValue I Arg)] := by
  cases cmd
  exact ⟨rfl, rfl⟩

/-- Claim C3: if `handle_command` on state `s` and command `cmd` yields the
single-event list `[ev]`, then applying `ev` to a clone of `s` with
`apply_event` produces exactly the state obtained by directly invoking the
underlying command method on `s` with the command's arguments. -/
theorem apply_event_replays_command {S I : Type} {Arg : I → Type}
    (G : GeneratedAggregate S I Arg) (s : S) (cmd : CommandValue I Arg)
    (ev : EventValue I Arg)
    (h : handle_command G s cmd = Except.ok [ev]) :
    apply_event G s ev = G.method cmd.variant s cmd.payload := by
  cases cmd with
  | mk i a =>
    have h2 : (Except.ok [(⟨i, a⟩ : EventValue I Arg)] :
        Except AggregateError (List (EventValue I Arg))) = Except.ok [ev] := h
    injection h2 with h3
    injection h3 with h4
    rw [← h4]
    rfl

/-- Concrete run of `apply_event_replays_command` on the `Foo` aggregate of
the repository's own tests: dispatching `Rename` and replaying the produced
event renames the entity. -/
theorem apply_event_replays_command_witness :
    apply_event fooAggregate ⟨⟨5, ()⟩, "Old Name"⟩
        ⟨FooCommandIndex.rename, "New Name"⟩ =
      fooAggregate.method FooCommandIndex.rename ⟨⟨5, ()⟩, "Old Name"⟩
        "New Name" :=
  apply_event_replays_command fooAggregate ⟨⟨5, ()⟩, "Old Name"⟩
    ⟨FooCommandIndex.rename, "New Name"⟩
    ⟨FooCommandIndex.rename, "New Name"⟩ rfl

/-- Claim C10: the result of `handle_command` does not depend on the state
it is called on — any two states yield the same event list, whose single
event carries exactly the command's argument values; the mutated copy of
the state is discarded. -/
theorem handle_command_state_independent {S I : Type} {Arg : I → Type}
    (G : GeneratedAggregate S I Arg) (s1 s2 : S) (cmd : CommandValue I Arg) :
    handle_command G s1 cmd = handle_command G s2 cmd ∧
    handle_command G s1 cmd =
      Except.ok [(⟨cmd.variant, cmd.payload⟩ : EventValue I Arg)] := by
  cases cmd
  exact ⟨rfl, rfl⟩

/-! ## Theorems about variant generation -/

/-- The variant list produced by the loop: one variant per command-flagged
method, in method order, named by the PascalCase transform and carrying the
method's parameters. -/
def commandVariantList (items : List MethodDecl) : List Variant :=
  (items.filter methodIsCommand).map (fun m => ⟨upperCamelCase m.name, m.params⟩)

lemma domainImplLoop_eq (items : List MethodDecl) :
    domainImplLoop items = (commandVariantList items, commandVariantList items) := by
  induction items with
  | nil => rfl
  | cons m rest ih =>
    simp only [domainImplLoop, ih, commandVariantList, List.filter_cons]
    cases h : methodIsCommand m <;> simp [h, commandVariantList]

lemma commandVariantList_map_name (items : List MethodDecl) :
    (commandVariantList items).map Variant.name =
      (items.filter methodIsCommand).map (fun m => upperCamelCase m.name) := by
  simp only [commandVariantList, List.map_map]
  rfl

/-- Claim C4: the generated Command and Event variant lists are identical —
positionally one-for-one, same names, same field sets — they are exactly the
image of the command-flagged methods (non-command methods contribute
nothing), and when the PascalCase names are pairwise distinct (the only case
in which the emitted enums are legal), every command variant matches exactly
one event variant with identical name and field set. -/
theorem command_event_variants_one_for_one (items : List MethodDecl)
    (h : ((items.filter methodIsCommand).map
        (fun m => upperCamelCase m.name)).Nodup) :
    (domainImplLoop items).2 = (domainImplLoop items).1 ∧
    (domainImplLoop items).1 = commandVariantList items ∧
    ∀ v ∈ (domainImplLoop items).1, (domainImplLoop items).2.count v = 1 := by
  rw [domainImplLoop_eq]
  refine ⟨rfl, rfl, ?_⟩
  intro v hv
  have hnd : ((commandVariantList items).map Variant.name).Nodup := by
    rw [commandVariantList_map_name]
    exact h
  exact List.count_eq_one_of_mem (List.Nodup.of_map _ hnd) hv

/-- Concrete run of `command_event_variants_one_for_one` on the `rename`
method of the repository's `Foo` example. -/
theorem command_event_variants_one_for_one_witness :
    (domainImplLoop [⟨"rename", ["command"], [("new_name", "String")]⟩]).2 =
      (domainImplLoop [⟨"rename", ["command"], [("new_name", "String")]⟩]).1 ∧
    (domainImplLoop [⟨"rename", ["command"], [("new_name", "String")]⟩]).1 =
      commandVariantList [⟨"rename", ["command"], [("new_name", "String")]⟩] ∧
    ∀ v ∈ (domainImplLoop [⟨"rename", ["command"], [("new_name", "String")]⟩]).1,
      (domainImplLoop [⟨"rename", ["command"], [("new_name", "String")]⟩]).2.count v = 1 :=
  command_event_variants_one_for_one
    [⟨"rename", ["command"], [("new_name", "String")]⟩] (by decide)

/-- Two command-flagged methods whose distinct names share one PascalCase
image: `my_name` and `myName` both transform to `MyName`. -/
def collideInput : ItemImplModel :=
  ⟨SelfTy.path "Widget",
   [⟨"my_name", ["command"], [("value", "u8")]⟩,
    ⟨"myName", ["command"], [("other", "u8")]⟩]⟩

/-- Claim C8 (counterexample): on an impl block whose two command methods
collide on their PascalCase name, `domain_impl` does not fail — it returns
its artifacts, whose command enum carries the variant name `MyName` twice. -/
theorem collision_not_fatal_counterexample :
    (domain_impl collideInput).isOk = true ∧
    (domain_impl collideInput).map
        (fun o => o.cmd_variants.map Variant.name) =
      Except.ok ["MyName", "MyName"] := by
  constructor <;> rfl

/-- Claim C8 (amended): `domain_impl` performs no collision check — on any
impl block over a path type containing two distinct command-flagged methods
with the same PascalCase name, generation succeeds and the emitted Command
enum contains a duplicated variant name (the collision is rejected only by
the downstream compiler, not by the generator). -/
theorem collision_emits_duplicate_variants (input : ItemImplModel)
    (nm : String) (m1 m2 : MethodDecl)
    (hself : input.self_ty = SelfTy.path nm)
    (h1 : m1 ∈ input.items) (h2 : m2 ∈ input.items) (hne : m1 ≠ m2)
    (hc1 : methodIsCommand m1 = true) (hc2 : methodIsCommand m2 = true)
    (hcol : upperCamelCase m1.name = upperCamelCase m2.name) :
    ∃ out, domain_impl input = Except.ok out ∧
      ¬ (out.cmd_variants.map Variant.name).Nodup := by
  obtain ⟨st, items⟩ := input
  simp only at hself h1 h2
  subst hself
  refine ⟨⟨nm, nm ++ "Command", nm ++ "Event",
    commandVariantList items, commandVariantList items⟩, ?_, ?_⟩
  · simp [domain_impl, domainImplLoop_eq]
  · intro hnd
    rw [commandVariantList_map_name] at hnd
    have hm1 : m1 ∈ items.filter methodIsCommand :=
      List.mem_filter.mpr ⟨h1, hc1⟩
    have hm2 : m2 ∈ items.filter methodIsCommand :=
      List.mem_filter.mpr ⟨h2, hc2⟩
    exact hne (List.inj_on_of_nodup_map hnd hm1 hm2 hcol)

/-- Concrete run of `collision_emits_duplicate_variants` on the
`my_name`/`myName` collision. -/
theorem collision_emits_duplicate_variants_witness :
    ∃ out, domain_impl collideInput = Except.ok out ∧
      ¬ (out.cmd_variants.map Variant.name).Nodup :=
  collision_emits_duplicate_variants collideInput "Widget"
    ⟨"my_name", ["command"], [("value", "u8")]⟩
    ⟨"myName", ["command"], [("other", "u8")]⟩
    rfl (by decide) (by decide) (by decide) rfl rfl (by decide)

/-! ## Theorems about the generated constructor -/

/-- Pure per-field conversions instrumented to record, in an effect world,
the index of each conversion as it runs: conversion `i` maps `a` to
`fs[i] a` and appends `i` to the trace. -/
def tracedConversions {V : Type} (fs : List (V → V)) (k : Nat) :
    List (V → List Nat → V × List Nat) :=
  (List.enumFrom k fs).map (fun p => fun a w => (p.2 a, w ++ [p.1]))

lemma runConversions_traced {V : Type} (fs : List (V → V)) :
    ∀ (args : List V) (k : Nat) (w : List Nat), fs.length = args.length →
    runConversions (tracedConversions fs k) args w =
      (List.zipWith (fun f a => f a) fs args, w ++ List.range' k fs.length) := by
  induction fs with
  | nil =>
    intro args k w h
    simp [tracedConversions, runConversions]
  | cons f fs ih =>
    intro args k w h
    cases args with
    | nil => simp at h
    | cons a rest =>
      simp only [List.length_cons, Nat.add_right_cancel_iff] at h
      simp only [tracedConversions, List.enumFrom, List.map_cons,
        runConversions, List.zipWith_cons_cons, List.length_cons,
        List.range'_succ]
      rw [show ((List.enumFrom (k + 1) fs).map
          (fun p => fun a w => (p.2 a, w ++ [p.1]))) =
          tracedConversions fs (k + 1) from rfl]
      rw [ih rest (k + 1) (w ++ [k]) h]
      simp

/-- Claim C7: the generated `new(id, f_1, …, f_n)` stores the supplied
identifier unchanged in the `id` field, sets the i-th declared field to the
conversion of the i-th argument and nothing else, and runs the `Into`
conversions exactly once each, in declaration order (the recorded trace is
`[0, 1, …, n-1]`). -/
theorem entity_new_converts_in_order {Id V : Type} (fs : List (V → V))
    (id : Id) (args : List V) (h : fs.length = args.length) :
    (entityNew (tracedConversions fs 0) id args []).1.id = id ∧
    (entityNew (tracedConversions fs 0) id args []).1.fields =
      List.zipWith (fun f a => f a) fs args ∧
    (entityNew (tracedConversions fs 0) id args []).2 =
      List.range fs.length := by
  have hr := runConversions_traced fs args 0 [] h
  refine ⟨rfl, ?_, ?_⟩
  · simp only [entityNew, hr]
  · simp only [entityNew, hr, List.range_eq_range', List.nil_append]

/-- Concrete run of `entity_new_converts_in_order`, mirroring the
repository's `Foo::new(id, "warehouse")` test: a single string field whose
`Into` conversion is the owned-string conversion. -/
theorem entity_new_converts_in_order_witness :
    (entityNew (tracedConversions [fun s => s ++ ""] 0) (42 : Nat)
        ["warehouse"] []).1.id = 42 ∧
    (entityNew (tracedConversions [fun s => s ++ ""] 0) (42 : Nat)
        ["warehouse"] []).1.fields =
      List.zipWith (fun f a => f a) [fun s => s ++ ""] ["warehouse"] ∧
    (entityNew (tracedConversions [fun s => s ++ ""] 0) (42 : Nat)
        ["warehouse"] []).2 =
      List.range (List.length [fun s : String => s ++ ""]) :=
  entity_new_converts_in_order [fun s => s ++ ""] 42 ["warehouse"] rfl

/-! ## Identifier round-trip theorems -/

lemma hexDigitVal_hexDigitChar (n : Nat) (h : n < 16) :
    hexDigitVal (hexDigitChar n) = some n := by
  interval_cases n <;> decide

lemma readHex_natToHexList (w : Nat) :
    ∀ (n acc : Nat) (rest : List Char), n < 16 ^ w →
    readHex w acc (natToHexList w n ++ rest) = some (acc * 16 ^ w + n, rest) := by
  induction w with
  | zero =>
    intro n acc rest h
    have hn : n = 0 := by omega
    subst hn
    simp [natToHexList, readHex]
  | succ w ih =>
    intro n acc rest h
    have hd : n / 16 ^ w < 16 := by
      rw [Nat.div_lt_iff_lt_mul (Nat.pos_pow_of_pos w (by norm_num))]
      calc n < 16 ^ (w + 1) := h
        _ = 16 * 16 ^ w := by ring
    have hm : n % 16 ^ w < 16 ^ w :=
      Nat.mod_lt _ (Nat.pos_pow_of_pos w (by norm_num))
    simp only [natToHexList, List.cons_append, readHex,
      hexDigitVal_hexDigitChar _ hd, List.append_eq]
    rw [ih (n % 16 ^ w) (acc * 16 + n / 16 ^ w) rest hm]
    have harith : (acc * 16 + n / 16 ^ w) * 16 ^ w + n % 16 ^ w =
        acc * 16 ^ (w + 1) + n := by
      have hdm : n / 16 ^ w * 16 ^ w + n % 16 ^ w = n := Nat.div_add_mod' n _
      calc (acc * 16 + n / 16 ^ w) * 16 ^ w + n % 16 ^ w
          = acc * (16 ^ w * 16) + (n / 16 ^ w * 16 ^ w + n % 16 ^ w) := by ring
        _ = acc * 16 ^ (w + 1) + n := by rw [hdm, pow_succ]
    rw [harith]

lemma div_shift_pow16 (m j : Nat) :
    m / 2 ^ (j + 16) * 2 ^ 16 + m / 2 ^ j % 2 ^ 16 = m / 2 ^ j := by
  rw [pow_add, ← Nat.div_div_eq_div_mul]
  exact Nat.div_add_mod' (m / 2 ^ j) (2 ^ 16)

lemma uuidParseChars_groups (a b c d e : Nat) (ha : a < 16 ^ 8)
    (hb : b < 16 ^ 4) (hc : c < 16 ^ 4) (hd : d < 16 ^ 4) (he : e < 16 ^ 12) :
    uuidParseChars (natToHexList 8 a ++ '-' ::
        (natToHexList 4 b ++ '-' :: (natToHexList 4 c ++ '-' ::
        (natToHexList 4 d ++ '-' :: natToHexList 12 e)))) =
      some ((((a * 16 ^ 4 + b) * 16 ^ 4 + c) * 16 ^ 4 + d) * 16 ^ 12 + e) := by
  simp only [uuidParseChars]
  rw [readHex_natToHexList 8 a 0 _ ha]
  simp only [Option.some_bind, Nat.zero_mul, Nat.zero_add]
  rw [show expectDash ('-' :: (natToHexList 4 b ++ '-' ::
      (natToHexList 4 c ++ '-' :: (natToHexList 4 d ++ '-' ::
      natToHexList 12 e)))) = some (natToHexList 4 b ++ '-' ::
      (natToHexList 4 c ++ '-' :: (natToHexList 4 d ++ '-' ::
      natToHexList 12 e))) from rfl]
  simp only [Option.some_bind]
  rw [readHex_natToHexList 4 b a _ hb]
  simp only [Option.some_bind]
  rw [show expectDash ('-' :: (natToHexList 4 c ++ '-' ::
      (natToHexList 4 d ++ '-' :: natToHexList 12 e))) =
      some (natToHexList 4 c ++ '-' :: (natToHexList 4 d ++ '-' ::
      natToHexList 12 e)) from rfl]
  simp only [Option.some_bind]
  rw [readHex_natToHexList 4 c (a * 16 ^ 4 + b) _ hc]
  simp only [Option.some_bind]
  rw [show expectDash ('-' :: (natToHexList 4 d ++ '-' ::
      natToHexList 12 e)) = some (natToHexList 4 d ++ '-' ::
      natToHexList 12 e) from rfl]
  simp only [Option.some_bind]
  rw [readHex_natToHexList 4 d ((a * 16 ^ 4 + b) * 16 ^ 4 + c) _ hd]
  simp only [Option.some_bind]
  rw [show expectDash ('-' :: natToHexList 12 e) =
      some (natToHexList 12 e) from rfl]
  simp only [Option.some_bind]
  rw [show (natToHexList 12 e : List Char) = natToHexList 12 e ++ [] by simp,
    readHex_natToHexList 12 e (((a * 16 ^ 4 + b) * 16 ^ 4 + c) * 16 ^ 4 + d) [] he]
  rfl

/-- The canonical rendering parses back to the original 128-bit value. -/
lemma uuidParseChars_uuidChars (n : Nat) (h : n < 2 ^ 128) :
    uuidParseChars (uuidChars n) = some n := by
  have ha : n / 2 ^ 96 < 16 ^ 8 := by
    have h16 : (16 : Nat) ^ 8 = 2 ^ 32 := by norm_num
    rw [h16, Nat.div_lt_iff_lt_mul (by positivity)]
    calc n < 2 ^ 128 := h
      _ = 2 ^ 32 * 2 ^ 96 := by norm_num
  have hb : n / 2 ^ 80 % 2 ^ 16 < 16 ^ 4 := by
    have h16 : (16 : Nat) ^ 4 = 2 ^ 16 := by norm_num
    rw [h16]
    exact Nat.mod_lt _ (by positivity)
  have hc : n / 2 ^ 64 % 2 ^ 16 < 16 ^ 4 := by
    have h16 : (16 : Nat) ^ 4 = 2 ^ 16 := by norm_num
    rw [h16]
    exact Nat.mod_lt _ (by positivity)
  have hd : n / 2 ^ 48 % 2 ^ 16 < 16 ^ 4 := by
    have h16 : (16 : Nat) ^ 4 = 2 ^ 16 := by norm_num
    rw [h16]
    exact Nat.mod_lt _ (by positivity)
  have he : n % 2 ^ 48 < 16 ^ 12 := by
    have h16 : (16 : Nat) ^ 12 = 2 ^ 48 := by norm_num
    rw [h16]
    exact Nat.mod_lt _ (by positivity)
  rw [uuidChars, uuidParseChars_groups _ _ _ _ _ ha hb hc hd he]
  congr 1
  have h4 : (16 : Nat) ^ 4 = 2 ^ 16 := by norm_num
  have h12 : (16 : Nat) ^ 12 = 2 ^ 48 := by norm_num
  rw [h4, h12]
  have s1 : n / 2 ^ 96 * 2 ^ 16 + n / 2 ^ 80 % 2 ^ 16 = n / 2 ^ 80 :=
    div_shift_pow16 n 80
  have s2 : n / 2 ^ 80 * 2 ^ 16 + n / 2 ^ 64 % 2 ^ 16 = n / 2 ^ 64 :=
    div_shift_pow16 n 64
  have s3 : n / 2 ^ 64 * 2 ^ 16 + n / 2 ^ 48 % 2 ^ 16 = n / 2 ^ 48 :=
    div_shift_pow16 n 48
  have s4 : n / 2 ^ 48 * 2 ^ 48 + n % 2 ^ 48 = n :=
    Nat.div_add_mod' n (2 ^ 48)
  rw [s1, s2, s3, s4]

/-- Claim C5: for every generated identifier of any tag, parsing the
canonical string rendering yields the identifier back, the equality being
structural on the underlying 128-bit value (and on the zero-sized marker). -/
theorem id_parse_render_roundtrip (T : Type) (id : RepositoryId T)
    (h : id.value < 2 ^ 128) :
    RepositoryId.fromStr T (RepositoryId.render id) = Except.ok id := by
  obtain ⟨v, m⟩ := id
  simp only at h
  simp only [RepositoryId.render, RepositoryId.fromStr, uuidFromString,
    uuidToString, uuidParseChars_uuidChars v h]

/-- Concrete run of `id_parse_render_roundtrip` on a `FooTag` identifier. -/
theorem id_parse_render_roundtrip_witness :
    RepositoryId.fromStr FooTag
        (RepositoryId.render (⟨123456789, ()⟩ : RepositoryId FooTag)) =
      Except.ok (⟨123456789, ()⟩ : RepositoryId FooTag) :=
  id_parse_render_roundtrip FooTag ⟨123456789, ()⟩ (by norm_num)

/-- `enum LocationTag {}` from `src/crates/core/src/location.rs`, used as a
second tag to exercise cross-tag deserialization. -/
inductive LocationTag : Type
  deriving DecidableEq

/-- Claim C6: the tag is erased from the serialized form — an identifier of
tag `A` and one of tag `B` with the same value serialize identically, and
deserializing the serialized form of an `A`-tagged identifier at tag `B`
succeeds and preserves the underlying value. -/
theorem id_serialization_erases_tag (A B : Type) (id : RepositoryId A)
    (h : id.value < 2 ^ 128) :
    RepositoryId.serialize id =
      RepositoryId.serialize (⟨id.value, ()⟩ : RepositoryId B) ∧
    RepositoryId.deserialize B (RepositoryId.serialize id) =
      Except.ok (⟨id.value, ()⟩ : RepositoryId B) := by
  refine ⟨rfl, ?_⟩
  simp only [RepositoryId.serialize, RepositoryId.deserialize,
    uuidFromString, uuidToString, uuidParseChars_uuidChars id.value h]

/-- Concrete run of `id_serialization_erases_tag`: a `FooTag` identifier
deserializes as a `LocationTag` identifier with the same value. -/
theorem id_serialization_erases_tag_witness :
    RepositoryId.serialize (⟨987654321, ()⟩ : RepositoryId FooTag) =
      RepositoryId.serialize (⟨987654321, ()⟩ : RepositoryId LocationTag) ∧
    RepositoryId.deserialize LocationTag
        (RepositoryId.serialize (⟨987654321, ()⟩ : RepositoryId FooTag)) =
      Except.ok (⟨987654321, ()⟩ : RepositoryId LocationTag) :=
  id_serialization_erases_tag FooTag LocationTag ⟨987654321, ()⟩ (by norm_num)

/-! ## Theorems about the in-memory reference repository -/

lemma repoOfCreates_db (es : List Foo) : (repoOfCreates es).db = es := by
  have general : ∀ (l : List Foo) (r : VectorFooRepo),
      (l.foldl (fun r e => (r.create e).1) r).db = r.db ++ l := by
    intro l
    induction l with
    | nil => intro r; simp
    | cons e rest ih =>
      intro r
      rw [List.foldl_cons, ih]
      simp [VectorFooRepo.create]
  rw [repoOfCreates, general es VectorFooRepo.empty]
  rfl

lemma find?_id_eq_none (l : List Foo) (y : FooId)
    (h : ∀ d ∈ l, d.id ≠ y) :
    l.find? (fun d => d.id == y) = none := by
  rw [List.find?_eq_none]
  intro d hd
  simp only [beq_iff_eq]
  exact h d hd

/-- Claim C9: on a repository populated only by `create` calls whose ids
are pairwise fresh, a further `create` of entity `e` returns `Ok e`;
`fetch` of `e.id` then returns `Ok (Some e)` — an entity equal to the
stored one — and `fetch` of any id never used in a create returns
`Ok None`, absence being the normal `Ok` outcome rather than an error. -/
theorem vector_repo_create_fetch (es : List Foo) (e : Foo) (y : FooId)
    (hx : ∀ d ∈ es, d.id ≠ e.id) (hy : ∀ d ∈ es, d.id ≠ y)
    (hye : e.id ≠ y) :
    ((repoOfCreates es).create e).2 = Except.ok e ∧
    ((repoOfCreates es).create e).1.fetch e.id = Except.ok (some e) ∧
    ((repoOfCreates es).create e).1.fetch y = Except.ok none := by
  refine ⟨rfl, ?_, ?_⟩
  · simp only [VectorFooRepo.fetch, VectorFooRepo.create, repoOfCreates_db,
      List.find?_append, find?_id_eq_none es e.id hx]
    simp [List.find?_cons]
  · simp only [VectorFooRepo.fetch, VectorFooRepo.create, repoOfCreates_db,
      List.find?_append, find?_id_eq_none es y hy]
    have : ([e].find? (fun d => d.id == y)) = none := by
      rw [List.find?_eq_none]
      intro d hd
      simp only [List.mem_singleton] at hd
      subst hd
      simp only [beq_iff_eq]
      exact hye
    rw [this]
    rfl

/-- Concrete run of `vector_repo_create_fetch`: one `create` on the empty
repository, then a hit on the created id and a miss on a fresh id. -/
theorem vector_repo_create_fetch_witness :
    ((repoOfCreates []).create ⟨⟨1, ()⟩, "warehouse"⟩).2 =
      Except.ok ⟨⟨1, ()⟩, "warehouse"⟩ ∧
    ((repoOfCreates []).create ⟨⟨1, ()⟩, "warehouse"⟩).1.fetch ⟨1, ()⟩ =
      Except.ok (some ⟨⟨1, ()⟩, "warehouse"⟩) ∧
    ((repoOfCreates []).create ⟨⟨1, ()⟩, "warehouse"⟩).1.fetch ⟨2, ()⟩ =
      Except.ok none :=
  vector_repo_create_fetch [] ⟨⟨1, ()⟩, "warehouse"⟩ ⟨2, ()⟩
    (by intro d hd; cases hd) (by intro d hd; cases hd) (by decide)

end Stowr
